import Mathlib

/-!
Verification of the osint-studio in-memory graph store
(`src-tauri/src/entities.rs` and `src-tauri/src/database.rs`, with the
command handlers of `src-tauri/src/lib.rs` for the reachable-state
invariants).

Modelling conventions:
* `Uuid` is modelled as `Nat`; the command handlers draw fresh ids from a
  counter, idealizing `Uuid::new_v4` (the spec treats generated ids as
  globally unique).
* `DateTime<Utc>` is modelled as `Nat`; `Utc::now()` becomes an explicit
  time argument, assumed nondecreasing along a trace of operations.
* `f32`/`f64` scores are modelled as `ℚ`; the only arithmetic performed on
  them by the code is `clamp`, which is exact.
* `serde_json::Value` is modelled by the inductive `Json`;
  `Value::Object(Map::new())` is `Json.obj []`.
* `HashMap<Uuid, Node>` is modelled as an association list of nodes keyed
  by `Node.id` (`hmInsert` has the replace-or-add semantics of
  `HashMap::insert`); `Vec<Relationship>` is a `List Relationship`.
* Every store operation in `database.rs` returns `Ok(...)`
  unconditionally, so the `Result` wrapper is dropped; operations are
  modelled as state-passing functions `Database → Database × α` so that
  frame properties are expressible.
-/

/-- `serde_json::Value`. -/
inductive Json where
  | null : Json
  | bool (b : Bool) : Json
  | num (q : ℚ) : Json
  | str (s : String) : Json
  | arr (elems : List Json) : Json
  | obj (fields : List (String × Json)) : Json

/-- `entities.rs` `NodeType`: the closed set of entity kinds. -/
inductive NodeType where
  | Person | Organization | CryptoWallet | SocialAccount | Domain
  | IpAddress | Email | Phone | Document | Event
deriving DecidableEq

/-- `entities.rs` `RelationType`: the closed set of edge kinds. -/
inductive RelationType where
  | Owns | Controls | TransactsWith | MemberOf | ConnectedTo
  | SameAs | RelatedTo | ParentOf | ChildOf
deriving DecidableEq

/-- `entities.rs` `Node`. -/
structure Node where
  id : Nat
  node_type : NodeType
  label : String
  description : Option String
  metadata : Json
  created_at : Nat
  updated_at : Nat
  confidence : ℚ
  tags : List String
  source : Option String

/-- `entities.rs` `Relationship`. -/
structure Relationship where
  id : Nat
  source_id : Nat
  target_id : Nat
  relation_type : RelationType
  description : Option String
  weight : ℚ
  confidence : ℚ
  created_at : Nat
  updated_at : Nat
  metadata : Json
  source : Option String

/-- `Node::new(node_type, label)`; the generated `Uuid::new_v4()` and
`Utc::now()` are the explicit arguments `id` and `now`. -/
def Node.new (id : Nat) (now : Nat) (node_type : NodeType) (label : String) : Node :=
  { id := id
    node_type := node_type
    label := label
    description := none
    metadata := Json.obj []
    created_at := now
    updated_at := now
    confidence := 1
    tags := []
    source := none }

/-- `Node::with_description`. -/
def Node.with_description (n : Node) (description : String) : Node :=
  { n with description := some description }

/-- `Node::with_tags`. -/
def Node.with_tags (n : Node) (tags : List String) : Node :=
  { n with tags := tags }

/-- `Relationship::new(source_id, target_id, relation_type)`; generated id
and current time are explicit arguments. -/
def Relationship.new (id : Nat) (now : Nat) (source_id : Nat) (target_id : Nat)
    (relation_type : RelationType) : Relationship :=
  { id := id
    source_id := source_id
    target_id := target_id
    relation_type := relation_type
    description := none
    weight := 1
    confidence := 7/10
    created_at := now
    updated_at := now
    metadata := Json.obj []
    source := none }

/-- Rust `f32::clamp(self, min, max)` on the exact rationals:
`if self < min { min } else if self > max { max } else { self }`. -/
def f32clamp (v lo hi : ℚ) : ℚ :=
  if v < lo then lo else if v > hi then hi else v

/-- `Relationship::with_confidence`: `self.confidence = confidence.clamp(0.0, 1.0)`. -/
def Relationship.with_confidence (r : Relationship) (confidence : ℚ) : Relationship :=
  { r with confidence := f32clamp confidence 0 1 }

/-- `Relationship::with_source`. -/
def Relationship.with_source (r : Relationship) (source : String) : Relationship :=
  { r with source := some source }

/-- `database.rs` `Database`: `HashMap<Uuid, Node>` as an association list
keyed by `Node.id`, `Vec<Relationship>` in insertion order. The
`Arc<Mutex<...>>` wrappers serialize access; a single operation is modelled
as a pure state transformer. -/
structure Database where
  nodes : List Node
  relationships : List Relationship

/-- `Database::new()`. -/
def Database.new : Database := { nodes := [], relationships := [] }

/-- `HashMap::insert` keyed by `Node.id`: replace the entry with the same
key in place, otherwise add the entry. -/
def hmInsert : List Node → Node → List Node
  | [], n => [n]
  | m :: ms, n => if m.id = n.id then n :: ms else m :: hmInsert ms n

/-- `Database::create_node`: `nodes.insert(node.id, node)`, returns the id. -/
def Database.create_node (db : Database) (node : Node) : Database × Nat :=
  ({ db with nodes := hmInsert db.nodes node }, node.id)

/-- `Database::get_node`: `nodes.get(&id).cloned()`. -/
def Database.get_node (db : Database) (id : Nat) : Database × Option Node :=
  (db, db.nodes.find? (fun n => n.id == id))

/-- `Database::get_all_nodes`. -/
def Database.get_all_nodes (db : Database) : Database × List Node :=
  (db, db.nodes)

/-- Case-insensitive character, modelling Rust char lowercasing. -/
def lowerL (s : String) : List Char :=
  s.data.map Char.toLower

/-- Rust `str::is_prefix`-style check used to realize `contains`:
`isPrefixB needle hay` is true when `hay` starts with `needle`. -/
def isPrefixB : List Char → List Char → Bool
  | [], _ => true
  | _ :: _, [] => false
  | a :: as, b :: bs => a == b && isPrefixB as bs

/-- Rust `str::contains(needle)`: some suffix of `hay` starts with
`needle`. -/
def containsB (needle : List Char) : List Char → Bool
  | [] => needle.isEmpty
  | c :: rest => isPrefixB needle (c :: rest) || containsB needle rest

/-- The description clause of the `search_nodes` filter:
`node.description.as_ref().map_or(false, |desc| desc.to_lowercase().contains(..))`. -/
def descMatches (query : String) : Option String → Bool
  | some desc => containsB (lowerL query) (lowerL desc)
  | none => false

/-- The filter predicate of `Database::search_nodes`: lower-cased query is
contained in the lower-cased label, or in the lower-cased description when
present, or in the lower-cased form of some tag. -/
def nodeMatches (query : String) (n : Node) : Bool :=
  containsB (lowerL query) (lowerL n.label) ||
  descMatches query n.description ||
  n.tags.any (fun tag => containsB (lowerL query) (lowerL tag))

/-- `Database::search_nodes`. -/
def Database.search_nodes (db : Database) (query : String) : Database × List Node :=
  (db, db.nodes.filter (nodeMatches query))

/-- `Database::update_node`: `nodes.insert(node.id, node)`. -/
def Database.update_node (db : Database) (node : Node) : Database :=
  { db with nodes := hmInsert db.nodes node }

/-- `Database::delete_node`: remove the node if present and, if one was
removed, retain only relationships with `source_id != id && target_id != id`. -/
def Database.delete_node (db : Database) (id : Nat) : Database × Bool :=
  let node_existed := (db.nodes.find? (fun n => n.id == id)).isSome
  if node_existed then
    ({ nodes := db.nodes.filter (fun n => !(n.id == id))
       relationships :=
         db.relationships.filter (fun r => !(r.source_id == id) && !(r.target_id == id)) },
     true)
  else
    (db, false)

/-- `Database::create_relationship`: push onto the vector, return the id. -/
def Database.create_relationship (db : Database) (rel : Relationship) : Database × Nat :=
  ({ db with relationships := db.relationships ++ [rel] }, rel.id)

/-- `Database::get_relationships`: clone of the vector. -/
def Database.get_relationships (db : Database) : Database × List Relationship :=
  (db, db.relationships)

/-- `Database::get_node_relationships`: relationships whose source or
target equals `node_id`, in stored order. -/
def Database.get_node_relationships (db : Database) (node_id : Nat) :
    Database × List Relationship :=
  (db, db.relationships.filter (fun r => r.source_id == node_id || r.target_id == node_id))

/-- The in-place replacement of `Database::update_relationship`: replace
the first element with matching id, leave the list unchanged when none
matches. -/
def replaceFirst : List Relationship → Relationship → List Relationship
  | [], _ => []
  | x :: xs, rel => if x.id = rel.id then rel :: xs else x :: replaceFirst xs rel

/-- `Database::update_relationship`. -/
def Database.update_relationship (db : Database) (rel : Relationship) : Database :=
  { db with relationships := replaceFirst db.relationships rel }

/-- The removal of `Database::delete_relationship`: remove the first
element with matching id, reporting whether one was found. -/
def removeFirstRel : List Relationship → Nat → List Relationship × Bool
  | [], _ => ([], false)
  | x :: xs, id =>
    if x.id = id then (xs, true)
    else
      let res := removeFirstRel xs id
      (x :: res.1, res.2)

/-- `Database::delete_relationship`. -/
def Database.delete_relationship (db : Database) (id : Nat) : Database × Bool :=
  let res := removeFirstRel db.relationships id
  ({ db with relationships := res.1 }, res.2)

/-- `Database::clear_all`. -/
def Database.clear_all (_db : Database) : Database :=
  { nodes := [], relationships := [] }

/-!
The command handlers of `lib.rs`, which are the store's only callers in the
repository. They draw fresh ids from a counter (`Uuid::new_v4` idealized as
globally unique) and read the clock (`Utc::now()`) as an explicit time
argument. `Sys` carries the database together with the id source and the
time of the last operation.
-/

/-- Application state plus the id/time oracles of the handlers. -/
structure Sys where
  db : Database
  nextId : Nat
  clock : Nat

/-- The state at application start: `Database::new()` with fresh oracles. -/
def sysInit : Sys := { db := Database.new, nextId := 0, clock := 0 }

/-- The node built by the `create_node` handler from a `CreateNodeRequest`:
`Node::new`, then `with_description` when a description is given, then
`with_tags` when the tag list is non-empty. -/
def buildNode (id now : Nat) (ty : NodeType) (label : String)
    (desc : Option String) (tags : List String) : Node :=
  let node := Node.new id now ty label
  let node := match desc with
    | some d => node.with_description d
    | none => node
  if tags.isEmpty then node else node.with_tags tags

/-- The relationship built by the `create_relationship` handler from a
`CreateRelationshipRequest`: `Relationship::new`, then `with_confidence`
when a confidence is given, then `with_source` when a source is given,
then the description field when a description is given. -/
def buildRel (id now src tgt : Nat) (ty : RelationType) (desc : Option String)
    (conf : Option ℚ) (srcRef : Option String) : Relationship :=
  let rel := Relationship.new id now src tgt ty
  let rel := match conf with
    | some c => rel.with_confidence c
    | none => rel
  let rel := match srcRef with
    | some s => rel.with_source s
    | none => rel
  match desc with
  | some d => { rel with description := some d }
  | none => rel

/-- One invocation of a `lib.rs` command handler; the time argument of each
constructor is the `Utc::now()` observed by that invocation. -/
inductive Op where
  | createNode (ty : NodeType) (label : String) (desc : Option String) (tags : List String)
  | updateNode (id : Nat) (label : String) (desc : Option String)
      (tags : List String) (conf : ℚ)
  | deleteNode (id : Nat)
  | createRel (src tgt : Nat) (ty : RelationType) (desc : Option String)
      (conf : Option ℚ) (srcRef : Option String)
  | updateRel (id : Nat) (ty : RelationType) (desc : Option String) (weight : ℚ)
  | deleteRel (id : Nat)
  | clearAll

/-- The effect of one handler invocation at time `t`. The update handlers
fetch the existing record, refresh the mutable fields and set
`updated_at = Utc::now()`; when the record is absent they return an error
without touching the store. -/
def applyOp (s : Sys) (t : Nat) : Op → Sys
  | Op.createNode ty label desc tags =>
    { db := (s.db.create_node (buildNode s.nextId t ty label desc tags)).1
      nextId := s.nextId + 1
      clock := t }
  | Op.updateNode id label desc tags conf =>
    match (s.db.get_node id).2 with
    | none => { s with clock := t }
    | some node =>
      { s with
        db := s.db.update_node
          { node with label := label, description := desc, tags := tags,
                      confidence := conf, updated_at := t }
        clock := t }
  | Op.deleteNode id =>
    { s with db := (s.db.delete_node id).1, clock := t }
  | Op.createRel src tgt ty desc conf srcRef =>
    { db := (s.db.create_relationship (buildRel s.nextId t src tgt ty desc conf srcRef)).1
      nextId := s.nextId + 1
      clock := t }
  | Op.updateRel id ty desc weight =>
    match (s.db.get_relationships).2.find? (fun r => r.id == id) with
    | none => { s with clock := t }
    | some rel =>
      { s with
        db := s.db.update_relationship
          { rel with relation_type := ty, description := desc,
                     weight := weight, updated_at := t }
        clock := t }
  | Op.deleteRel id =>
    { s with db := (s.db.delete_relationship id).1, clock := t }
  | Op.clearAll =>
    { s with db := s.db.clear_all, clock := t }

/-- The states reachable from application start by handler invocations,
with the observed clock nondecreasing along the trace. -/
inductive Reachable : Sys → Prop where
  | init : Reachable sysInit
  | step {s : Sys} (t : Nat) (op : Op) :
      Reachable s → s.clock ≤ t → Reachable (applyOp s t op)

/-- The spec's substring relation: the needle occurs contiguously inside
the hay. -/
def SubstrOf (needle hay : List Char) : Prop :=
  ∃ pre post, hay = pre ++ needle ++ post

/-- The spec's description of a search match, stated from the spec's words
(claim C3): the lower-cased query is a substring of the lower-cased label,
or of the lower-cased description when present, or of the lower-cased form
of at least one tag. -/
def SpecMatch (query : String) (n : Node) : Prop :=
  SubstrOf (lowerL query) (lowerL n.label) ∨
  (∃ d, n.description = some d ∧ SubstrOf (lowerL query) (lowerL d)) ∨
  (∃ tag, tag ∈ n.tags ∧ SubstrOf (lowerL query) (lowerL tag))

/-- Inductive invariant of the reachable states: every stored id is below
the id counter, timestamps never run ahead of the clock and never
decrease across an update, and the id sequences of both collections are
duplicate-free. -/
def SysInv (s : Sys) : Prop :=
  (∀ n ∈ s.db.nodes, n.id < s.nextId ∧ n.created_at ≤ n.updated_at ∧
      n.updated_at ≤ s.clock) ∧
  (∀ r ∈ s.db.relationships, r.id < s.nextId ∧ r.created_at ≤ r.updated_at ∧
      r.updated_at ≤ s.clock) ∧
  (s.db.nodes.map Node.id).Nodup ∧
  (s.db.relationships.map Relationship.id).Nodup

/-- Timestamps are ordered for every entity in the state: each stored node
and relationship satisfies created_at less-or-equal updated_at. -/
def TimestampsMono (s : Sys) : Prop :=
  (∀ n ∈ s.db.nodes, n.created_at ≤ n.updated_at) ∧
  (∀ r ∈ s.db.relationships, r.created_at ≤ r.updated_at)

/-! Concrete fixtures used for witnesses. -/

def nodeA : Node := Node.new 1 0 NodeType.Person "Alice"

def nodeB : Node := Node.new 2 0 NodeType.Organization "Acme"

def relAB : Relationship := Relationship.new 3 0 1 2 RelationType.MemberOf

def relBB : Relationship := Relationship.new 4 0 2 2 RelationType.ConnectedTo

/-- A store holding two nodes and two relationships. -/
def dbAB : Database := { nodes := [nodeA, nodeB], relationships := [relAB, relBB] }

/-- A fresh node whose id is absent from `dbAB`. -/
def nodeC : Node := Node.new 5 1 NodeType.Person "Carol"

/-- A relationship whose id is absent from `dbAB`. -/
def relY : Relationship := Relationship.new 9 1 1 2 RelationType.Owns

/-- A relationship sharing its id with `relAB`. -/
def relAB2 : Relationship := Relationship.new 3 1 1 2 RelationType.Owns

/-- One handler step from start: create a node. -/
def sysA : Sys := applyOp sysInit 1 (Op.createNode NodeType.Person "Alice" none [])

/-- Two handler steps from start: create a node, then a relationship. -/
def sysB : Sys :=
  applyOp sysA 2 (Op.createRel 0 0 RelationType.Owns none none none)

/-- Three handler steps from start, ending with a node update. -/
def sysC : Sys := applyOp sysB 3 (Op.updateNode 0 "Alice2" none [] (1/2))

/-! Helper lemmas about the list-level operations. -/

theorem hmInsert_of_forall_ne (ns : List Node) (n : Node)
    (h : ∀ m ∈ ns, m.id ≠ n.id) : hmInsert ns n = ns ++ [n] := by
  induction ns with
  | nil => rfl
  | cons m ms ih =>
    have hm : m.id ≠ n.id := h m (List.mem_cons_self m ms)
    simp only [hmInsert, if_neg hm, List.cons_append]
    rw [ih (fun x hx => h x (List.mem_cons_of_mem m hx))]

theorem mem_hmInsert {ns : List Node} {n x : Node}
    (h : x ∈ hmInsert ns n) : x ∈ ns ∨ x = n := by
  induction ns with
  | nil => exact Or.inr (List.mem_singleton.mp h)
  | cons m ms ih =>
    by_cases hb : m.id = n.id
    · simp only [hmInsert, if_pos hb] at h
      rcases List.mem_cons.mp h with rfl | h
      · right; rfl
      · left; exact List.mem_cons_of_mem m h
    · simp only [hmInsert, if_neg hb] at h
      rcases List.mem_cons.mp h with rfl | h
      · left; exact List.mem_cons_self x ms
      · rcases ih h with h | h
        · left; exact List.mem_cons_of_mem m h
        · right; exact h

theorem map_id_hmInsert_mem {ns : List Node} {n : Node}
    (h : n.id ∈ ns.map Node.id) :
    (hmInsert ns n).map Node.id = ns.map Node.id := by
  induction ns with
  | nil => simp at h
  | cons m ms ih =>
    by_cases hb : m.id = n.id
    · simp [hmInsert, if_pos hb, hb]
    · have h2 : n.id ∈ ms.map Node.id := by
        rcases List.mem_map.mp h with ⟨x, hx, hxe⟩
        rcases List.mem_cons.mp hx with rfl | hx
        · exact absurd hxe hb
        · exact List.mem_map.mpr ⟨x, hx, hxe⟩
      simp [hmInsert, if_neg hb, ih h2]

theorem replaceFirst_of_forall_ne (rs : List Relationship) (rel : Relationship)
    (h : ∀ x ∈ rs, x.id ≠ rel.id) : replaceFirst rs rel = rs := by
  induction rs with
  | nil => rfl
  | cons x xs ih =>
    have hx : x.id ≠ rel.id := h x (List.mem_cons_self x xs)
    simp only [replaceFirst, if_neg hx]
    rw [ih (fun y hy => h y (List.mem_cons_of_mem x hy))]

theorem replaceFirst_append (pre post : List Relationship) (x rel : Relationship)
    (hpre : ∀ y ∈ pre, y.id ≠ rel.id) (hx : x.id = rel.id) :
    replaceFirst (pre ++ x :: post) rel = pre ++ rel :: post := by
  induction pre with
  | nil => simp [replaceFirst, hx]
  | cons y ys ih =>
    have hy : y.id ≠ rel.id := hpre y (List.mem_cons_self y ys)
    simp only [List.cons_append, replaceFirst, if_neg hy, List.append_eq]
    rw [ih (fun z hz => hpre z (List.mem_cons_of_mem y hz))]

theorem mem_replaceFirst {rs : List Relationship} {rel x : Relationship}
    (h : x ∈ replaceFirst rs rel) : x ∈ rs ∨ x = rel := by
  induction rs with
  | nil => exact absurd h (List.not_mem_nil x)
  | cons y ys ih =>
    by_cases hb : y.id = rel.id
    · simp only [replaceFirst, if_pos hb] at h
      rcases List.mem_cons.mp h with rfl | h
      · right; rfl
      · left; exact List.mem_cons_of_mem y h
    · simp only [replaceFirst, if_neg hb] at h
      rcases List.mem_cons.mp h with rfl | h
      · left; exact List.mem_cons_self x ys
      · rcases ih h with h | h
        · left; exact List.mem_cons_of_mem y h
        · right; exact h

theorem map_id_replaceFirst (rs : List Relationship) (rel : Relationship) :
    (replaceFirst rs rel).map Relationship.id = rs.map Relationship.id := by
  induction rs with
  | nil => rfl
  | cons x xs ih =>
    by_cases hb : x.id = rel.id
    · simp [replaceFirst, if_pos hb, hb]
    · simp [replaceFirst, if_neg hb, ih]

theorem removeFirstRel_sublist (rs : List Relationship) (id : Nat) :
    List.Sublist (removeFirstRel rs id).1 rs := by
  induction rs with
  | nil => simp [removeFirstRel]
  | cons x xs ih =>
    by_cases hb : x.id = id
    · rw [removeFirstRel, if_pos hb]
      exact List.sublist_cons_self x xs
    · rw [removeFirstRel, if_neg hb]
      exact List.Sublist.cons₂ x ih

theorem find?_append_of_none {p : Node → Bool} {ns l : List Node}
    (h : ns.find? p = none) : (ns ++ l).find? p = l.find? p := by
  induction ns with
  | nil => rfl
  | cons m ms ih =>
    have hm := List.find?_eq_none.mp h m (List.mem_cons_self m ms)
    have hm2 : p m = false := by
      cases hpm : p m
      · rfl
      · exact absurd hpm hm
    have h2 : ms.find? p = none :=
      List.find?_eq_none.mpr (fun x hx =>
        List.find?_eq_none.mp h x (List.mem_cons_of_mem m hx))
    simp [List.find?, hm2, ih h2]

/-! Substring machinery for `search_nodes`. -/

theorem isPrefixB_iff (xs : List Char) : ∀ ys : List Char,
    isPrefixB xs ys = true ↔ ∃ t, ys = xs ++ t := by
  induction xs with
  | nil => intro ys; simp [isPrefixB]
  | cons a as ih =>
    intro ys
    cases ys with
    | nil => simp [isPrefixB]
    | cons b bs =>
      simp only [isPrefixB, Bool.and_eq_true, beq_iff_eq, ih bs, List.cons_append]
      constructor
      · rintro ⟨rfl, t, rfl⟩; exact ⟨t, rfl⟩
      · rintro ⟨t, ht⟩
        injection ht with h1 h2
        exact ⟨h1.symm, t, h2⟩

theorem containsB_iff (needle : List Char) : ∀ hay : List Char,
    containsB needle hay = true ↔ ∃ pre post, hay = pre ++ needle ++ post := by
  intro hay
  induction hay with
  | nil =>
    simp only [containsB, List.isEmpty_iff]
    constructor
    · rintro rfl; exact ⟨[], [], rfl⟩
    · rintro ⟨pre, post, h⟩
      rcases List.append_eq_nil.mp ((List.append_assoc pre needle post ▸ h).symm) with ⟨h1, h2⟩
      exact (List.append_eq_nil.mp h2).1
  | cons c rest ih =>
    simp only [containsB, Bool.or_eq_true, isPrefixB_iff, ih]
    constructor
    · rintro (⟨t, ht⟩ | ⟨pre, post, hpp⟩)
      · exact ⟨[], t, by simpa using ht⟩
      · exact ⟨c :: pre, post, by simp [hpp]⟩
    · rintro ⟨pre, post, hpp⟩
      cases pre with
      | nil => exact Or.inl ⟨post, by simpa using hpp⟩
      | cons p ps =>
        right
        injection hpp with h1 h2
        exact ⟨ps, post, h2⟩

theorem containsB_nil_needle : ∀ hay : List Char, containsB [] hay = true := by
  intro hay
  cases hay with
  | nil => rfl
  | cons c rest => simp [containsB, isPrefixB]

theorem descMatches_iff (query : String) (o : Option String) :
    descMatches query o = true ↔
      ∃ d, o = some d ∧ SubstrOf (lowerL query) (lowerL d) := by
  cases o with
  | none => simp [descMatches]
  | some d => simp [descMatches, containsB_iff, SubstrOf]

theorem nodeMatches_iff (query : String) (n : Node) :
    nodeMatches query n = true ↔ SpecMatch query n := by
  simp only [nodeMatches, Bool.or_eq_true, List.any_eq_true, containsB_iff,
    descMatches_iff, SpecMatch, SubstrOf]
  exact or_assoc

/-! Claim theorems. -/

theorem f32clamp_eq_max_min (v : ℚ) : f32clamp v 0 1 = max 0 (min v 1) := by
  unfold f32clamp
  split_ifs with h1 h2
  · rw [min_eq_left (h1.le.trans zero_le_one), max_eq_left h1.le]
  · rw [min_eq_right (le_of_lt h2), max_eq_right zero_le_one]
  · rw [min_eq_left (not_lt.mp h2), max_eq_right (not_lt.mp h1)]

/-- Claim C5: for every relationship and value, `with_confidence` yields a
relationship whose confidence is the value clamped to [0, 1] and whose
other fields are unchanged; in particular the inputs -0.5, 1.7 and 0.42
yield confidences 0, 1 and 0.42. -/
theorem with_confidence_clamps (r : Relationship) (v : ℚ) :
    r.with_confidence v = { r with confidence := max 0 (min v 1) } ∧
    (r.with_confidence (-(1/2))).confidence = 0 ∧
    (r.with_confidence (17/10)).confidence = 1 ∧
    (r.with_confidence (42/100)).confidence = 42/100 := by
  refine ⟨?_, ?_, ?_, ?_⟩
  · unfold Relationship.with_confidence
    rw [f32clamp_eq_max_min]
  · norm_num [Relationship.with_confidence, f32clamp]
  · norm_num [Relationship.with_confidence, f32clamp]
  · norm_num [Relationship.with_confidence, f32clamp]

/-- Claim C9: `Node::new` yields equal creation and update timestamps,
confidence 1, empty tags, no description, no source and empty-object
metadata; `Relationship::new` yields equal timestamps, weight 1 and
confidence 0.7. -/
theorem new_entity_defaults (id now : Nat) (ty : NodeType) (label : String)
    (rid rnow src tgt : Nat) (rty : RelationType) :
    (Node.new id now ty label).created_at = (Node.new id now ty label).updated_at ∧
    (Node.new id now ty label).confidence = 1 ∧
    (Node.new id now ty label).tags = [] ∧
    (Node.new id now ty label).description = none ∧
    (Node.new id now ty label).source = none ∧
    (Node.new id now ty label).metadata = Json.obj [] ∧
    (Relationship.new rid rnow src tgt rty).created_at =
      (Relationship.new rid rnow src tgt rty).updated_at ∧
    (Relationship.new rid rnow src tgt rty).weight = 1 ∧
    (Relationship.new rid rnow src tgt rty).confidence = 7/10 :=
  ⟨rfl, rfl, rfl, rfl, rfl, rfl, rfl, rfl, rfl⟩

/-- Claim C10: each read operation (get_node, get_all_nodes, search_nodes,
get_relationships, get_node_relationships) returns the store state
unchanged. -/
theorem read_ops_frame (db : Database) (id nid : Nat) (query : String) :
    (db.get_node id).1 = db ∧
    db.get_all_nodes.1 = db ∧
    (db.search_nodes query).1 = db ∧
    db.get_relationships.1 = db ∧
    (db.get_node_relationships nid).1 = db :=
  ⟨rfl, rfl, rfl, rfl, rfl⟩

/-- Claim C8: `create_relationship` appends at the end of the relationship
sequence with no uniqueness or referential check and returns the id,
leaving nodes untouched; `get_relationships` returns the stored sequence in
insertion order; appending twice always retains both relationships — in
particular two relationships with identical source, target and type. -/
theorem create_relationship_appends (db : Database) (rel r1 r2 : Relationship) :
    (db.create_relationship rel).1.relationships = db.relationships ++ [rel] ∧
    (db.create_relationship rel).1.nodes = db.nodes ∧
    (db.create_relationship rel).2 = rel.id ∧
    (db.create_relationship rel).1.get_relationships.2 = db.relationships ++ [rel] ∧
    ((db.create_relationship r1).1.create_relationship r2).1.relationships =
      db.relationships ++ [r1, r2] := by
  refine ⟨rfl, rfl, rfl, rfl, ?_⟩
  simp [Database.create_relationship]

/-- Claim C3: `search_nodes` returns exactly the nodes whose lower-cased
label, lower-cased description (when present) or lower-cased tag contains
the lower-cased query as a substring, and the empty query returns every
node. -/
theorem search_nodes_correct (db : Database) (query : String) :
    (∀ n, n ∈ (db.search_nodes query).2 ↔ n ∈ db.nodes ∧ SpecMatch query n) ∧
    (db.search_nodes "").2 = db.nodes := by
  constructor
  · intro n
    simp only [Database.search_nodes, List.mem_filter, nodeMatches_iff]
  · simp only [Database.search_nodes]
    apply List.filter_eq_self.mpr
    intro a _
    have h0 : lowerL "" = [] := rfl
    simp [nodeMatches, descMatches, h0, containsB_nil_needle]

/-- Claim C4: `delete_node(id)` returns true exactly when a node with that
id is present, and a false return leaves the whole store unchanged; the
not-found outcome is the boolean result of a total function, not an
error. -/
theorem delete_node_reports (db : Database) (id : Nat) :
    ((db.delete_node id).2 = true ↔ ∃ n, n ∈ db.nodes ∧ n.id = id) ∧
    ((db.delete_node id).2 = false → (db.delete_node id).1 = db) := by
  by_cases h : (db.nodes.find? (fun n => n.id == id)).isSome
  · constructor
    · constructor
      · intro _
        rcases List.find?_isSome.mp h with ⟨x, hx, hpx⟩
        exact ⟨x, hx, by simpa using hpx⟩
      · intro _
        simp [Database.delete_node, h]
    · intro hfalse
      simp [Database.delete_node, h] at hfalse
  · constructor
    · constructor
      · intro htrue
        simp [Database.delete_node, h] at htrue
      · intro ⟨n, hn, hid⟩
        exact absurd (List.find?_isSome.mpr ⟨n, hn, by simpa using hid⟩) h
    · intro _
      simp [Database.delete_node, h]

/-- Claim C4 witness: deleting from the empty store reports false and
changes nothing. -/
theorem delete_node_reports_witness :
    (Database.new.delete_node 5).2 = false ∧
    (Database.new.delete_node 5).1 = Database.new :=
  ⟨rfl, (delete_node_reports Database.new 5).2 rfl⟩

/-- Claim C1: when `delete_node(id)` returns true, the node with that id is
gone, no remaining relationship references id as source or target, the
remaining relationships form a subsequence of the prior ones (prior
relative order kept), and every relationship referencing neither side of
id is retained. -/
theorem delete_node_cascade (db : Database) (id : Nat)
    (h : (db.delete_node id).2 = true) :
    ((db.delete_node id).1.get_node id).2 = none ∧
    (∀ r ∈ (db.delete_node id).1.relationships,
      r.source_id ≠ id ∧ r.target_id ≠ id) ∧
    List.Sublist (db.delete_node id).1.relationships db.relationships ∧
    (∀ r, r.source_id ≠ id → r.target_id ≠ id →
      (r ∈ (db.delete_node id).1.relationships ↔ r ∈ db.relationships)) := by
  by_cases hs : (db.nodes.find? (fun n => n.id == id)).isSome
  · have heq : (db.delete_node id).1 =
        { nodes := db.nodes.filter (fun n => !(n.id == id))
          relationships := db.relationships.filter
            (fun r => !(r.source_id == id) && !(r.target_id == id)) } := by
      simp [Database.delete_node, hs]
    rw [heq]
    refine ⟨?_, ?_, ?_, ?_⟩
    · apply List.find?_eq_none.mpr
      intro x hx
      have := (List.mem_filter.mp hx).2
      simpa using this
    · intro r hr
      have := (List.mem_filter.mp hr).2
      simpa using this
    · exact List.filter_sublist db.relationships
    · intro r hsrc htgt
      constructor
      · intro hr
        exact (List.mem_filter.mp hr).1
      · intro hr
        exact List.mem_filter.mpr ⟨hr, by simpa using ⟨hsrc, htgt⟩⟩
  · exfalso
    simp [Database.delete_node, hs] at h

/-- Claim C1 witness: deleting node 1 from the two-node store removes it
and its relationship while the unrelated relationship set is untouched. -/
theorem delete_node_cascade_witness :
    ((dbAB.delete_node 1).1.get_node 1).2 = none :=
  (delete_node_cascade dbAB 1 rfl).1

/-- Claim C2: `update_node` with an absent id inserts the node (count grows
by one and the node is then found), `update_relationship` with an absent id
leaves the store unchanged, and with a present id it replaces the first
matching element in place, preserving its position, all other elements and
the node collection. -/
theorem update_asymmetry (db : Database) (n : Node) (rel : Relationship) :
    ((db.get_node n.id).2 = none →
      (db.update_node n).nodes.length = db.nodes.length + 1 ∧
      ((db.update_node n).get_node n.id).2 = some n) ∧
    ((∀ x ∈ db.relationships, x.id ≠ rel.id) → db.update_relationship rel = db) ∧
    (∀ pre x post, db.relationships = pre ++ x :: post → x.id = rel.id →
      (∀ y ∈ pre, y.id ≠ rel.id) →
      (db.update_relationship rel).relationships = pre ++ rel :: post ∧
      (db.update_relationship rel).nodes = db.nodes) := by
  refine ⟨?_, ?_, ?_⟩
  · intro h
    have hne : ∀ m ∈ db.nodes, m.id ≠ n.id := by
      intro m hm
      have := List.find?_eq_none.mp h m hm
      simpa using this
    have hins : hmInsert db.nodes n = db.nodes ++ [n] :=
      hmInsert_of_forall_ne db.nodes n hne
    constructor
    · simp [Database.update_node, hins]
    · simp only [Database.update_node, Database.get_node, hins]
      rw [find?_append_of_none h]
      simp [List.find?]
  · intro h
    have : replaceFirst db.relationships rel = db.relationships :=
      replaceFirst_of_forall_ne db.relationships rel h
    simp [Database.update_relationship, this]
  · intro pre x post hsplit hx hpre
    constructor
    · simp only [Database.update_relationship, hsplit]
      exact replaceFirst_append pre post x rel hpre hx
    · rfl

/-- Claim C2 witness: on a concrete store, updating a fresh node grows the
node count, updating an unknown relationship id is a no-op, and updating a
known relationship id replaces the first occurrence in place. -/
theorem update_asymmetry_witness :
    ((dbAB.update_node nodeC).nodes.length = dbAB.nodes.length + 1 ∧
      ((dbAB.update_node nodeC).get_node nodeC.id).2 = some nodeC) ∧
    dbAB.update_relationship relY = dbAB ∧
    (dbAB.update_relationship relAB2).relationships = [] ++ relAB2 :: [relBB] :=
  ⟨(update_asymmetry dbAB nodeC relY).1 rfl,
   (update_asymmetry dbAB nodeC relY).2.1 (by decide),
   ((update_asymmetry dbAB nodeC relAB2).2.2 [] relAB [relBB] rfl (by decide)
     (by simp)).1⟩

/-! Preservation of the reachable-state invariant. -/

theorem nodup_append_singleton {l : List Nat} {a : Nat} (hl : l.Nodup)
    (ha : a ∉ l) : (l ++ [a]).Nodup := by
  rw [List.nodup_append]
  exact ⟨hl, List.nodup_singleton a,
    fun x hx hxa => ha (List.mem_singleton.mp hxa ▸ hx)⟩

theorem buildNode_fields (id t : Nat) (ty : NodeType) (label : String)
    (desc : Option String) (tags : List String) :
    (buildNode id t ty label desc tags).id = id ∧
    (buildNode id t ty label desc tags).created_at = t ∧
    (buildNode id t ty label desc tags).updated_at = t := by
  unfold buildNode
  cases desc <;> by_cases h : tags.isEmpty = true <;>
    simp [h, Node.new, Node.with_description, Node.with_tags]

theorem buildRel_fields (id t src tgt : Nat) (ty : RelationType)
    (desc : Option String) (conf : Option ℚ) (srcRef : Option String) :
    (buildRel id t src tgt ty desc conf srcRef).id = id ∧
    (buildRel id t src tgt ty desc conf srcRef).created_at = t ∧
    (buildRel id t src tgt ty desc conf srcRef).updated_at = t := by
  unfold buildRel
  cases conf <;> cases srcRef <;> cases desc <;>
    simp [Relationship.new, Relationship.with_confidence, Relationship.with_source]

theorem delete_node_sublists (db : Database) (id : Nat) :
    List.Sublist (db.delete_node id).1.nodes db.nodes ∧
    List.Sublist (db.delete_node id).1.relationships db.relationships := by
  by_cases h : (db.nodes.find? (fun n => n.id == id)).isSome
  · constructor
    · have heq : (db.delete_node id).1.nodes =
          db.nodes.filter (fun n => !(n.id == id)) := by
        simp [Database.delete_node, h]
      rw [heq]
      exact List.filter_sublist db.nodes
    · have heq : (db.delete_node id).1.relationships =
          db.relationships.filter
            (fun r => !(r.source_id == id) && !(r.target_id == id)) := by
        simp [Database.delete_node, h]
      rw [heq]
      exact List.filter_sublist db.relationships
  · have heq : (db.delete_node id).1 = db := by simp [Database.delete_node, h]
    rw [heq]
    exact ⟨List.Sublist.refl _, List.Sublist.refl _⟩

theorem sysInv_applyOp {s : Sys} (hInv : SysInv s) {t : Nat} (ht : s.clock ≤ t)
    (op : Op) : SysInv (applyOp s t op) := by
  obtain ⟨hN, hR, hNd, hRd⟩ := hInv
  cases op with
  | createNode ty label desc tags =>
    obtain ⟨hid, hc, hu⟩ := buildNode_fields s.nextId t ty label desc tags
    have hfresh : ∀ m ∈ s.db.nodes,
        m.id ≠ (buildNode s.nextId t ty label desc tags).id := by
      intro m hm
      rw [hid]
      exact Nat.ne_of_lt (hN m hm).1
    have hins := hmInsert_of_forall_ne s.db.nodes _ hfresh
    have happ : applyOp s t (Op.createNode ty label desc tags) =
        { db := { nodes := hmInsert s.db.nodes (buildNode s.nextId t ty label desc tags)
                  relationships := s.db.relationships }
          nextId := s.nextId + 1
          clock := t } := rfl
    rw [happ]
    refine ⟨?_, ?_, ?_, ?_⟩
    · intro n hn
      rw [hins] at hn
      rcases List.mem_append.mp hn with hn | hn
      · exact ⟨Nat.lt_succ_of_lt (hN n hn).1, (hN n hn).2.1, (hN n hn).2.2.trans ht⟩
      · have he := List.mem_singleton.mp hn
        subst he
        refine ⟨?_, ?_, ?_⟩
        · rw [hid]
          exact Nat.lt_succ_self _
        · rw [hc, hu]
        · rw [hu]
    · intro r hr
      exact ⟨Nat.lt_succ_of_lt (hR r hr).1, (hR r hr).2.1, (hR r hr).2.2.trans ht⟩
    · rw [hins]
      simp only [List.map_append, List.map_cons, List.map_nil]
      apply nodup_append_singleton hNd
      intro hmem2
      rcases List.mem_map.mp hmem2 with ⟨x, hx, hxe⟩
      exact absurd ((hxe.trans hid) ▸ (hN x hx).1) (Nat.lt_irrefl _)
    · exact hRd
  | updateNode id label desc tags conf =>
    cases hfind : (s.db.get_node id).2 with
    | none =>
      have happ : applyOp s t (Op.updateNode id label desc tags conf) =
          { s with clock := t } := by
        simp [applyOp, hfind]
      rw [happ]
      exact ⟨fun n hn => ⟨(hN n hn).1, (hN n hn).2.1, (hN n hn).2.2.trans ht⟩,
             fun r hr => ⟨(hR r hr).1, (hR r hr).2.1, (hR r hr).2.2.trans ht⟩, hNd, hRd⟩
    | some node =>
      have hmemfind : s.db.nodes.find? (fun n => n.id == id) = some node := hfind
      have hmem : node ∈ s.db.nodes := List.mem_of_find?_eq_some hmemfind
      obtain ⟨h1, h2, h3⟩ := hN node hmem
      have happ : applyOp s t (Op.updateNode id label desc tags conf) =
          { s with
            db := s.db.update_node
              { node with label := label, description := desc, tags := tags,
                          confidence := conf, updated_at := t }
            clock := t } := by
        simp [applyOp, hfind]
      rw [happ]
      refine ⟨?_, ?_, ?_, ?_⟩
      · intro n hn
        rcases mem_hmInsert hn with h | h
        · exact ⟨(hN n h).1, (hN n h).2.1, (hN n h).2.2.trans ht⟩
        · subst h
          exact ⟨h1, h2.trans (h3.trans ht), le_rfl⟩
      · intro r hr
        exact ⟨(hR r hr).1, (hR r hr).2.1, (hR r hr).2.2.trans ht⟩
      · have hidmem : ({ node with label := label, description := desc, tags := tags, confidence := conf, updated_at := t } : Node).id ∈ s.db.nodes.map Node.id :=
          List.mem_map.mpr ⟨node, hmem, rfl⟩
        exact (map_id_hmInsert_mem hidmem).symm ▸ hNd
      · exact hRd
  | deleteNode id =>
    have happ : applyOp s t (Op.deleteNode id) =
        { s with db := (s.db.delete_node id).1, clock := t } := rfl
    rw [happ]
    obtain ⟨hsn, hsr⟩ := delete_node_sublists s.db id
    refine ⟨?_, ?_, ?_, ?_⟩
    · intro n hn
      have h := hN n (hsn.subset hn)
      exact ⟨h.1, h.2.1, h.2.2.trans ht⟩
    · intro r hr
      have h := hR r (hsr.subset hr)
      exact ⟨h.1, h.2.1, h.2.2.trans ht⟩
    · exact hNd.sublist (hsn.map Node.id)
    · exact hRd.sublist (hsr.map Relationship.id)
  | createRel src tgt ty desc conf srcRef =>
    obtain ⟨hid, hc, hu⟩ := buildRel_fields s.nextId t src tgt ty desc conf srcRef
    have happ : applyOp s t (Op.createRel src tgt ty desc conf srcRef) =
        { db := { nodes := s.db.nodes
                  relationships := s.db.relationships ++
                    [buildRel s.nextId t src tgt ty desc conf srcRef] }
          nextId := s.nextId + 1
          clock := t } := rfl
    rw [happ]
    refine ⟨?_, ?_, ?_, ?_⟩
    · intro n hn
      exact ⟨Nat.lt_succ_of_lt (hN n hn).1, (hN n hn).2.1, (hN n hn).2.2.trans ht⟩
    · intro r hr
      rcases List.mem_append.mp hr with h | h
      · exact ⟨Nat.lt_succ_of_lt (hR r h).1, (hR r h).2.1, (hR r h).2.2.trans ht⟩
      · have he := List.mem_singleton.mp h
        subst he
        refine ⟨?_, ?_, ?_⟩
        · rw [hid]
          exact Nat.lt_succ_self _
        · rw [hc, hu]
        · rw [hu]
    · exact hNd
    · simp only [List.map_append, List.map_cons, List.map_nil]
      apply nodup_append_singleton hRd
      intro hmem2
      rcases List.mem_map.mp hmem2 with ⟨x, hx, hxe⟩
      exact absurd ((hxe.trans hid) ▸ (hR x hx).1) (Nat.lt_irrefl _)
  | updateRel id ty desc weight =>
    cases hfind : (s.db.get_relationships).2.find? (fun r => r.id == id) with
    | none =>
      have happ : applyOp s t (Op.updateRel id ty desc weight) =
          { s with clock := t } := by
        simp [applyOp, hfind]
      rw [happ]
      exact ⟨fun n hn => ⟨(hN n hn).1, (hN n hn).2.1, (hN n hn).2.2.trans ht⟩,
             fun r hr => ⟨(hR r hr).1, (hR r hr).2.1, (hR r hr).2.2.trans ht⟩, hNd, hRd⟩
    | some rel =>
      have hmemfind : s.db.relationships.find? (fun r => r.id == id) = some rel := hfind
      have hmem : rel ∈ s.db.relationships := List.mem_of_find?_eq_some hmemfind
      obtain ⟨h1, h2, h3⟩ := hR rel hmem
      have happ : applyOp s t (Op.updateRel id ty desc weight) =
          { s with
            db := s.db.update_relationship
              { rel with relation_type := ty, description := desc,
                         weight := weight, updated_at := t }
            clock := t } := by
        simp [applyOp, hfind]
      rw [happ]
      refine ⟨?_, ?_, ?_, ?_⟩
      · intro n hn
        exact ⟨(hN n hn).1, (hN n hn).2.1, (hN n hn).2.2.trans ht⟩
      · intro r hr
        rcases mem_replaceFirst hr with h | h
        · exact ⟨(hR r h).1, (hR r h).2.1, (hR r h).2.2.trans ht⟩
        · subst h
          exact ⟨h1, h2.trans (h3.trans ht), le_rfl⟩
      · exact hNd
      · exact (map_id_replaceFirst s.db.relationships _).symm ▸ hRd
  | deleteRel id =>
    have happ : applyOp s t (Op.deleteRel id) =
        { s with db := (s.db.delete_relationship id).1, clock := t } := rfl
    rw [happ]
    have hsr : List.Sublist (s.db.delete_relationship id).1.relationships
        s.db.relationships := removeFirstRel_sublist s.db.relationships id
    refine ⟨?_, ?_, ?_, ?_⟩
    · intro n hn
      exact ⟨(hN n hn).1, (hN n hn).2.1, (hN n hn).2.2.trans ht⟩
    · intro r hr
      have h := hR r (hsr.subset hr)
      exact ⟨h.1, h.2.1, h.2.2.trans ht⟩
    · exact hNd
    · exact hRd.sublist (hsr.map Relationship.id)
  | clearAll =>
    have happ : applyOp s t Op.clearAll =
        { s with db := { nodes := [], relationships := [] }, clock := t } := rfl
    rw [happ]
    exact ⟨fun n hn => absurd hn (List.not_mem_nil n),
           fun r hr => absurd hr (List.not_mem_nil r),
           List.nodup_nil, List.nodup_nil⟩

theorem reachable_sysInv {s : Sys} (h : Reachable s) : SysInv s := by
  induction h with
  | init =>
    refine ⟨?_, ?_, ?_, ?_⟩ <;> simp [sysInit, Database.new]
  | step t op hr hle ih => exact sysInv_applyOp ih hle op

/-- Claim C6: in every state reachable from the empty store by handler
operations, node ids are pairwise distinct within the node collection and
relationship ids are pairwise distinct within the relationship collection
(handler-generated ids are modelled as globally fresh, idealizing
`Uuid::new_v4`). -/
theorem store_ids_nodup {s : Sys} (h : Reachable s) :
    (s.db.nodes.map Node.id).Nodup ∧
    (s.db.relationships.map Relationship.id).Nodup :=
  ⟨(reachable_sysInv h).2.2.1, (reachable_sysInv h).2.2.2⟩

/-- Claim C6 witness: a concrete two-step reachable state has
duplicate-free id sequences. -/
theorem store_ids_nodup_witness :
    (sysB.db.nodes.map Node.id).Nodup ∧
    (sysB.db.relationships.map Relationship.id).Nodup :=
  store_ids_nodup
    (Reachable.step 2 (Op.createRel 0 0 RelationType.Owns none none none)
      (Reachable.step 1 (Op.createNode NodeType.Person "Alice" none [])
        Reachable.init (by decide))
      (by decide))

/-- Claim C7: in every state reachable from the empty store by handler
operations, every stored entity — in particular every entity that has been
through at least one update — satisfies updated_at greater-or-equal
created_at (proved for all stored entities, which subsumes the updated
ones). -/
theorem update_keeps_timestamps {s : Sys} (h : Reachable s) : TimestampsMono s :=
  ⟨fun n hn => ((reachable_sysInv h).1 n hn).2.1,
   fun r hr => ((reachable_sysInv h).2.1 r hr).2.1⟩

/-- Claim C7 witness: a concrete three-step reachable state, ending in a
node update, has ordered timestamps throughout. -/
theorem update_keeps_timestamps_witness : TimestampsMono sysC :=
  update_keeps_timestamps
    (Reachable.step 3 (Op.updateNode 0 "Alice2" none [] (1/2))
      (Reachable.step 2 (Op.createRel 0 0 RelationType.Owns none none none)
        (Reachable.step 1 (Op.createNode NodeType.Person "Alice" none [])
          Reachable.init (by decide))
        (by decide))
      (by decide))
